import Mathlib

/-!
Verification of the lightscan pipelined execution engine
(`src/lightscan/main.cpp`, huangshizhi/scanner).

The definitions below are a shallow embedding of the pieces of `main.cpp`
that the verified claims are about: the work planner (main, lines 809-828),
the evaluate worker's batching loops (`evaluate_thread`, lines 513-644), the
master work dispatcher (main, lines 938-1008), the shutdown/sentinel
sequence (main, lines 1010-1051), the command-line handling (main, lines
696-748 and 1075), the byte extents written by the two frame-copy paths
(`load_video_thread` lines 296-341 and `convert_av_frame_to_rgb` lines
160-214), the scaler-context local of the software-decode path (line 306),
and a labelled transition system for the per-node buffer pool circulating
between load and evaluate workers.
-/

namespace Lightscan

/-- `frames_per_work_item()` (line 91): `GLOBAL_BATCH_SIZE * BATCHES_PER_WORK_ITEM`. -/
def frames_per_work_item (GLOBAL_BATCH_SIZE BATCHES_PER_WORK_ITEM : Nat) : Nat :=
  GLOBAL_BATCH_SIZE * BATCHES_PER_WORK_ITEM

/-- `struct VideoWorkItem` (lines 97-101).  The source stores `int` fields; all
values produced by the planner are non-negative, so they are modelled as `Nat`. -/
structure VideoWorkItem where
  video_index : Nat
  start_frame : Nat
  end_frame : Nat
deriving DecidableEq, Repr

/-- The planner's inner loop for one video (lines 815-827): starting from
`allocated`, repeatedly take `frames_to_allocate = min(WORK_ITEM_SIZE,
frames - allocated)` and emit the range
`(allocated, allocated + frames_to_allocate)`.  The `0 < W` conjunct in the
guard makes the recursion well founded; with `W = 0` the source loop would not
terminate, and all theorems assume `0 < W`. -/
def splitVideo (W allocated frames : Nat) : List (Nat × Nat) :=
  if h : 0 < W ∧ allocated < frames then
    (allocated, allocated + min W (frames - allocated)) ::
      splitVideo W (allocated + min W (frames - allocated)) frames
  else []
termination_by frames - allocated
decreasing_by omega

/-- The planner's outer loop over videos (lines 812-828): video `i` with
`metas[i]` frames contributes its split ranges tagged with `video_index = i`,
in index order. -/
def workItemsAux (W : Nat) : Nat → List Nat → List VideoWorkItem
  | _, [] => []
  | i, F :: rest =>
    (splitVideo W 0 F).map (fun q => ⟨i, q.1, q.2⟩) ++ workItemsAux W (i + 1) rest

/-- The full work-item list built by main (lines 809-828) from the per-video
frame counts `metas` (with `W = frames_per_work_item()`). -/
def workItems (W : Nat) (metas : List Nat) : List VideoWorkItem :=
  workItemsAux W 0 metas

/-- The sequence of batch sizes executed by `evaluate_thread` for one work
item (lines 513-644): the main loop (line 514) runs full batches of
`GLOBAL_BATCH_SIZE` while `current_frame + GLOBAL_BATCH_SIZE < end_frame`,
and the epilogue (lines 584-644) runs one batch of the remaining
`end_frame - current_frame` frames if any remain.  The `0 < B` conjunct in
the guard makes the recursion well founded; with `B = 0` the source loop
would not terminate, and all theorems assume `0 < B`. -/
def batchSizes (B current endf : Nat) : List Nat :=
  if h : 0 < B ∧ current + B < endf then
    B :: batchSizes B (current + B) endf
  else if current < endf then [endf - current] else []
termination_by endf - current
decreasing_by omega

/-- One forward pass of `evaluate_thread`: the batch dimension of the net
input blob used for the pass, and the list of frame numbers preprocessed
into it. -/
structure EvalPass where
  shape : Nat
  frames : List Nat
deriving DecidableEq, Repr

/-- The forward passes run by `evaluate_thread` for one work item
(lines 513-644).  Main-loop passes (lines 514-581) use a blob of batch
dimension `GLOBAL_BATCH_SIZE` and preprocess frames
`current_frame, ..., current_frame + GLOBAL_BATCH_SIZE - 1`; the epilogue
pass (lines 584-644) declares its own blob of batch dimension
`batch_size = end_frame - current_frame` and preprocesses exactly the
remaining frames. -/
def evalPasses (B current endf : Nat) : List EvalPass :=
  if h : 0 < B ∧ current + B < endf then
    ⟨B, List.range' current B⟩ :: evalPasses (B := B) (current + B) endf
  else if current < endf then [⟨endf - current, List.range' current (endf - current)⟩]
  else []
termination_by endf - current
decreasing_by omega

/-- One allocation decision per iteration of the master dispatch loop (lines
938-1008): each iteration with `next_work_item_to_allocate < work_items.size()`
allocates index `next_work_item_to_allocate++` exactly once, either to the
master's own `load_work` queue (lines 948-958, decision value `0`) or to the
remote node whose request was just received (lines 960-968, decision value =
that node's rank).  The `decisions` list records which node receives each
successive allocation; the loop exits once `next = N` and later iterations of
the reply loop send only `−1` sentinels (lines 971-982), which are excluded. -/
def masterAssign (N : Nat) : List Nat → Nat → List (Nat × Nat)
  | [], _ => []
  | d :: ds, next =>
    if next < N then (next, d) :: masterAssign N ds (next + 1) else []

/-- The work-item indices pushed into node `j`'s `load_work` queue, in push
order: the master pushes each self-assigned index into its own queue (line
956), and a non-master node pushes each non-negative index received in a reply
into its queue (lines 1001-1004), once per reply. -/
def nodeQueue (N : Nat) (decisions : List Nat) (j : Nat) : List Nat :=
  ((masterAssign N decisions 0).filter (fun p => p.2 == j)).map Prod.fst

/-- The four kinds of shutdown actions main performs after work distribution
finishes (lines 1010-1051). -/
inductive ShutdownEvent where
  | pushLoadSentinel : ShutdownEvent
  | joinLoadWorker (i : Nat) : ShutdownEvent
  | pushEvalSentinel (g : Nat) : ShutdownEvent
  | joinEvalWorker (g : Nat) : ShutdownEvent
deriving DecidableEq, Repr

/-- The sequence of shutdown actions of main, identical on every node, in
program order (lines 1010-1051): push `LOAD_WORKERS_PER_NODE` sentinel entries
into `load_work` (1010-1015), join every load worker (1017-1033), push one
sentinel into each `eval_work[g]` (1036-1040), join every eval worker
(1042-1051). -/
def shutdownSequence (L G : Nat) : List ShutdownEvent :=
  List.replicate L ShutdownEvent.pushLoadSentinel ++
    (List.range L).map ShutdownEvent.joinLoadWorker ++
    (List.range G).map ShutdownEvent.pushEvalSentinel ++
    (List.range G).map ShutdownEvent.joinEvalWorker

/-- A worker's main loop viewed on the sequence of `work_item_index` values it
pops: both `load_video_thread` (lines 236-241) and `evaluate_thread` (lines
482-487) break out of their loop the first time the popped index is `−1`;
`workerProcessed` returns the list of indices the worker actually processes. -/
def workerProcessed : List Int → List Int
  | [] => []
  | e :: rest => if e = -1 then [] else e :: workerProcessed rest

/-- Outcome of one program run (lines 696-748 and 1075).  `exitCode n` models
`return n` from main; `uncaughtRequiredOption` models the rethrow at line 745
of the `required_option` exception escaping main uncaught. -/
inductive CliOutcome where
  | exitCode (code : Int)
  | uncaughtRequiredOption
deriving DecidableEq, Repr

/-- main's argument handling followed by a successful run (lines 696-748,
1075): `po::store` parses the command line; `po::notify(vm)` (line 715) throws
`required_option` when `--video_paths_file` is absent; the catch handler
(lines 740-747) returns 1 when `--help` was given and otherwise rethrows the
exception; when `notify` succeeds, `--help` returns 1 (lines 717-720), and
otherwise the run proceeds and main returns `EXIT_SUCCESS = 0` on successful
completion (line 1075). -/
def mainOutcome (help : Bool) (video_paths_file : Option String) : CliOutcome :=
  match video_paths_file with
  | none => if help then .exitCode 1 else .uncaughtRequiredOption
  | some _ => if help then .exitCode 1 else .exitCode 0

/-- `av_image_get_buffer_size(AV_PIX_FMT_NV12, width, height, 1)` (lines
296-300 and 844-848): the luma plane has linesize `width` and `height` rows and
the interleaved chroma plane has linesize `width` and `⌈height/2⌉` rows. -/
def nv12ImageSize (width height : Nat) : Nat :=
  width * height + width * ((height + 1) / 2)

/-- `av_image_get_buffer_size(AV_PIX_FMT_RGB24, width, height, 1)` (lines
165-166): packed 3-byte pixels, linesize `3*width`, `height` rows. -/
def rgb24ImageSize (width height : Nat) : Nat := 3 * (width * height)

/-- `frames_buffer_offset` (lines 316-317): the slot offset
`frame_size * (current_frame - start_frame)`, with `frame_size` the NV12 image
size of the video's metadata dimensions. -/
def framesBufferOffset (width height current start : Nat) : Nat :=
  nv12ImageSize width height * (current - start)

/-- `frame_buffer_size` (line 849): `frame_size * frames_per_work_item()`,
sized from `video_metadata[0]`. -/
def frameBufferSize (width height FPWI : Nat) : Nat :=
  nv12ImageSize width height * FPWI

/-- Byte ranges `(start, length)` written into the work-item buffer by the
hardware-decode path for one frame (lines 326-335): for plane `i ∈ {0, 1}` a
`cudaMemcpy2D` to destination `current_frame_buffer_pos + i*width*height` with
destination pitch `metadata.width`, copy width `frame->width` and copy height
`frame->height`, i.e. `width*height` contiguous destination bytes per plane
(the loop uses the same `frame->height` for the luma and the chroma plane). -/
def hwDecodeWrites (width height off : Nat) : List (Nat × Nat) :=
  [(off + 0 * (width * height), width * height),
   (off + 1 * (width * height), width * height)]

/-- Byte range written by the software-decode path for one frame (lines 204-211
called from line 338): `av_image_copy_to_buffer` stores the full packed RGB24
image at `current_frame_buffer_pos`. -/
def swDecodeWrites (width height off : Nat) : List (Nat × Nat) :=
  [(off, rgb24ImageSize width height)]

/-- Every byte index of every range lies in `[lo, hi)`. -/
def writesWithin (writes : List (Nat × Nat)) (lo hi : Nat) : Prop :=
  ∀ p ∈ writes, lo ≤ p.1 ∧ p.1 + p.2 ≤ hi

instance (writes : List (Nat × Nat)) (lo hi : Nat) :
    Decidable (writesWithin writes lo hi) :=
  inferInstanceAs (Decidable (∀ p ∈ writes, lo ≤ p.1 ∧ p.1 + p.2 ≤ hi))

/-- Possible values of the `sws_context` local of `load_video_thread`
(line 306). -/
inductive SwsPtr where
  | indeterminate
  | fromLookup (n : Nat)
deriving DecidableEq, Repr

/-- The values of `sws_context` read by `sws_getCachedContext` at its
successive invocations within one work item of the software-decode path: the
local is declared without an initializer at line 306 inside the per-work-item
loop, and each frame's `convert_av_frame_to_rgb` call (line 338) reads the
current value (lines 169-176) and then overwrites it with the context the
lookup returns (`counter` numbers the lookup calls). -/
def swsReadsAux : SwsPtr → Nat → Nat → List SwsPtr
  | _, 0, _ => []
  | st, n + 1, counter => st :: swsReadsAux (SwsPtr.fromLookup counter) n (counter + 1)

/-- The sequence of pointer values the cached-scaler lookup is consulted with
over the frames of one work item with `numFrames` frames. -/
def swsReads (numFrames : Nat) : List SwsPtr :=
  swsReadsAux SwsPtr.indeterminate numFrames 0

/-- `struct LoadBufferEntry` (lines 107-110): the stable identity
`(gpu_device_id, buffer_index)` of one GPU frame buffer. -/
structure BufferId where
  gpu_device_id : Nat
  buffer_index : Nat
deriving DecidableEq, Repr

/-- An entry of queue `eval_work[g]`: either a real `EvalWorkEntry` carrying
the work-item index and the identity of the buffer the load worker filled
(lines 350-354), or the shutdown sentinel, whose `work_item_index` is `−1` and
whose `buffer_index` is never initialized (lines 1036-1040), so it carries no
buffer. -/
inductive EvalEntry where
  | entry (work_item_index : Nat) (buffer : BufferId)
  | sentinel
deriving DecidableEq, Repr

/-- Whether an `eval_work` entry is a real (non-sentinel) entry. -/
def EvalEntry.isEntry : EvalEntry → Bool
  | .entry _ _ => true
  | .sentinel => false

/-- Snapshot of one node's buffer-circulation state: the `empty_load_buffers`
queue, the per-GPU `eval_work` queues, the buffer each load worker currently
holds (between its pops at line 276 and its push at line 354), whether each
load worker has returned, the entry each eval worker currently holds (between
its pop at line 483 and its push at line 651), whether each eval worker has
returned, and whether main has pushed the eval sentinels yet. -/
structure NodeState where
  emptyLoadBuffers : List BufferId
  evalWork : Nat → List EvalEntry
  loadHold : Nat → Option BufferId
  loadDone : Nat → Bool
  evalHold : Nat → Option (Nat × BufferId)
  evalDone : Nat → Bool
  evalSentinelsPushed : Bool

/-- The buffer identities pre-enqueued into `empty_load_buffers` at startup
(lines 850-866): `(gpu, i)` for each `gpu < GPUS_PER_NODE` and each
`i < TASKS_IN_QUEUE_PER_GPU = LOAD_BUFFERS`, in that nesting order. -/
def initialBuffers (G T : Nat) : List BufferId :=
  (List.range G).flatMap (fun g => (List.range T).map (fun i => ⟨g, i⟩))

/-- The node state after startup, before any worker runs: all buffers free in
`empty_load_buffers`, all queues and holds empty (lines 834-866; the worker
threads are created only afterwards, lines 902-935). -/
def initialState (G T : Nat) : NodeState where
  emptyLoadBuffers := initialBuffers G T
  evalWork := fun _ => []
  loadHold := fun _ => none
  loadDone := fun _ => false
  evalHold := fun _ => none
  evalDone := fun _ => false
  evalSentinelsPushed := false

/-- One interleaving step of the per-node pipeline, with `G = GPUS_PER_NODE`,
`T = TASKS_IN_QUEUE_PER_GPU` and `L = LOAD_WORKERS_PER_NODE`:

* `loadPopBuffer`: load worker `i` pops the front of `empty_load_buffers`
  (line 276) and now holds that buffer;
* `loadPushEval`: load worker `i`, holding buffer `b` it has filled for work
  item `w`, pushes `EvalWorkEntry{w, b.buffer_index}` into
  `eval_work[b.gpu_device_id]` (lines 350-354) and releases its hold;
* `loadExit`: load worker `i` pops a `−1` entry from `load_work` and returns
  (lines 239-241);
* `evalPopEntry`: eval worker `g` pops a real entry from the front of
  `eval_work[g]` (line 483) and now holds `(w, b)`;
* `evalPushBuffer`: eval worker `g` finishes its work item and pushes
  `LoadBufferEntry{gpu_device_id = g, buffer_index}` into
  `empty_load_buffers` (lines 648-651), releasing its hold;
* `evalPopSentinel`: eval worker `g` pops the sentinel and returns
  (lines 485-487);
* `pushEvalSentinels`: after every load worker has been joined
  (lines 1017-1033), main pushes one sentinel into each `eval_work[g]`
  (lines 1036-1040). -/
inductive Step (G T L : Nat) : NodeState → NodeState → Prop where
  | loadPopBuffer (s : NodeState) (i : Nat) (b : BufferId) (rest : List BufferId)
      (hi : i < L) (hdone : s.loadDone i = false) (hhold : s.loadHold i = none)
      (hq : s.emptyLoadBuffers = b :: rest) :
      Step G T L s { s with
        emptyLoadBuffers := rest,
        loadHold := fun j => if j = i then some b else s.loadHold j }
  | loadPushEval (s : NodeState) (i w : Nat) (b : BufferId)
      (hi : i < L) (hhold : s.loadHold i = some b) :
      Step G T L s { s with
        evalWork := fun g => if g = b.gpu_device_id
          then s.evalWork g ++ [EvalEntry.entry w b] else s.evalWork g,
        loadHold := fun j => if j = i then none else s.loadHold j }
  | loadExit (s : NodeState) (i : Nat)
      (hi : i < L) (hdone : s.loadDone i = false) (hhold : s.loadHold i = none) :
      Step G T L s { s with
        loadDone := fun j => if j = i then true else s.loadDone j }
  | evalPopEntry (s : NodeState) (g w : Nat) (b : BufferId) (rest : List EvalEntry)
      (hg : g < G) (hdone : s.evalDone g = false) (hhold : s.evalHold g = none)
      (hq : s.evalWork g = EvalEntry.entry w b :: rest) :
      Step G T L s { s with
        evalWork := fun g2 => if g2 = g then rest else s.evalWork g2,
        evalHold := fun g2 => if g2 = g then some (w, b) else s.evalHold g2 }
  | evalPushBuffer (s : NodeState) (g w : Nat) (b : BufferId)
      (hg : g < G) (hhold : s.evalHold g = some (w, b)) :
      Step G T L s { s with
        emptyLoadBuffers := s.emptyLoadBuffers ++ [⟨g, b.buffer_index⟩],
        evalHold := fun g2 => if g2 = g then none else s.evalHold g2 }
  | evalPopSentinel (s : NodeState) (g : Nat) (rest : List EvalEntry)
      (hg : g < G) (hdone : s.evalDone g = false) (hhold : s.evalHold g = none)
      (hq : s.evalWork g = EvalEntry.sentinel :: rest) :
      Step G T L s { s with
        evalWork := fun g2 => if g2 = g then rest else s.evalWork g2,
        evalDone := fun g2 => if g2 = g then true else s.evalDone g2 }
  | pushEvalSentinels (s : NodeState)
      (hnot : s.evalSentinelsPushed = false)
      (hjoined : ∀ i, i < L → s.loadDone i = true) :
      Step G T L s { s with
        evalWork := fun g => if g < G
          then s.evalWork g ++ [EvalEntry.sentinel] else s.evalWork g,
        evalSentinelsPushed := true }

/-- The node states reachable during a run. -/
def bufferPoolReachable (G T L : Nat) (s : NodeState) : Prop :=
  Relation.ReflTransGen (Step G T L) (initialState G T) s

/-- Whether a (possibly held) buffer identity belongs to GPU `g`. -/
def heldMatches (o : Option BufferId) (g : Nat) : Bool :=
  match o with
  | some b => b.gpu_device_id == g
  | none => false

/-- Number of entries of `empty_load_buffers` whose identity belongs to GPU
`g`. -/
def countGpu (g : Nat) (l : List BufferId) : Nat :=
  l.countP (fun b => b.gpu_device_id == g)

/-- Number of load workers currently holding a buffer of GPU `g`. -/
def loadHeldCount (s : NodeState) (L g : Nat) : Nat :=
  (List.range L).countP (fun i => heldMatches (s.loadHold i) g)

/-- Whether the eval worker of GPU `g` currently holds a buffer. -/
def evalHeldCount (s : NodeState) (g : Nat) : Nat :=
  match s.evalHold g with
  | some _ => 1
  | none => 0

/-- The quantity the claim equates with `TASKS_IN_QUEUE_PER_GPU`, counting all
entries of `eval_work[g]`: free buffers of GPU `g`, buffers of GPU `g` held by
load workers, entries of `eval_work[g]`, and the eval worker's held buffer. -/
def bufferCount (s : NodeState) (L g : Nat) : Nat :=
  countGpu g s.emptyLoadBuffers + loadHeldCount s L g +
    (s.evalWork g).length + evalHeldCount s g

/-- The same quantity counting only the non-sentinel entries of
`eval_work[g]`. -/
def bufferCountEntries (s : NodeState) (L g : Nat) : Nat :=
  countGpu g s.emptyLoadBuffers + loadHeldCount s L g +
    (s.evalWork g).countP EvalEntry.isEntry + evalHeldCount s g

/-- With one GPU, one buffer and one load worker: the state after the load
worker pops its shutdown sentinel and returns (no work items were assigned to
this node). -/
def shutdownMidState : NodeState :=
  { initialState 1 1 with
    loadDone := fun j => if j = 0 then true else (initialState 1 1).loadDone j }

/-- The state right after main, having joined the load worker, pushes the
sentinel into `eval_work[0]` (lines 1036-1040): the buffer is free in
`empty_load_buffers` and the sentinel sits in `eval_work[0]`. -/
def shutdownSentinelState : NodeState :=
  { shutdownMidState with
    evalWork := fun g => if g < 1
      then shutdownMidState.evalWork g ++ [EvalEntry.sentinel]
      else shutdownMidState.evalWork g,
    evalSentinelsPushed := true }

/-- With one GPU, one buffer and one load worker: the state after the load
worker pops the buffer `(0, 0)` from `empty_load_buffers`. -/
def loadHoldingState : NodeState :=
  { initialState 1 1 with
    emptyLoadBuffers := [],
    loadHold := fun j => if j = 0 then some ⟨0, 0⟩
      else (initialState 1 1).loadHold j }

/-- The state after that load worker, having filled buffer `(0, 0)` for work
item `7`, pushes the corresponding entry into `eval_work[0]`. -/
def evalQueuedState : NodeState :=
  { loadHoldingState with
    evalWork := fun g => if g = (⟨0, 0⟩ : BufferId).gpu_device_id
      then loadHoldingState.evalWork g ++ [EvalEntry.entry 7 ⟨0, 0⟩]
      else loadHoldingState.evalWork g,
    loadHold := fun j => if j = 0 then none else loadHoldingState.loadHold j }

end Lightscan

namespace Lightscan

theorem splitVideo_closed (W : Nat) (hW : 0 < W) :
    ∀ F a, splitVideo W a F =
      (List.range ((F - a + W - 1) / W)).map
        (fun j => (a + j * W, min (a + (j + 1) * W) F)) := by
  intro F
  suffices main : ∀ n a, F - a ≤ n → splitVideo W a F =
      (List.range ((F - a + W - 1) / W)).map
        (fun j => (a + j * W, min (a + (j + 1) * W) F)) by
    intro a; exact main (F - a) a le_rfl
  intro n
  induction n with
  | zero =>
    intro a ha
    rw [splitVideo, dif_neg (by omega : ¬ (0 < W ∧ a < F))]
    rw [(Nat.div_eq_of_lt (by omega) : (F - a + W - 1) / W = 0)]
    simp
  | succ n ih =>
    intro a ha
    by_cases h1 : a < F
    case neg =>
      rw [splitVideo, dif_neg (by omega : ¬ (0 < W ∧ a < F))]
      rw [(Nat.div_eq_of_lt (by omega) : (F - a + W - 1) / W = 0)]
      simp
    case pos =>
      rw [splitVideo, dif_pos ⟨hW, h1⟩]
      by_cases h2 : F - a ≤ W
      · -- final (possibly short) item
        have hmin : min W (F - a) = F - a := by omega
        rw [hmin]
        have hend : splitVideo W (a + (F - a)) F = [] := by
          rw [splitVideo, dif_neg (by omega)]
        rw [hend]
        have hq : (F - a + W - 1) / W = 1 :=
          Nat.div_eq_of_lt_le (by omega) (by omega)
        rw [hq]
        have hmin2 : min (a + W) F = F := by omega
        have haF : a + (F - a) = F := by omega
        rw [haF, (by decide : List.range 1 = [0]), List.map_cons, List.map_nil]
        simp [hmin2]
      · -- full item followed by the remaining items
        have hmin : min W (F - a) = W := by omega
        rw [hmin, ih (a + W) (by omega)]
        have hrec : F - (a + W) + W - 1 = F - a - 1 := by omega
        rw [hrec]
        have hq : (F - a + W - 1) / W = (F - a - 1) / W + 1 := by
          rw [(by omega : F - a + W - 1 = (F - a - 1) + W), Nat.add_div_right _ hW]
        rw [hq, List.range_succ_eq_map, List.map_cons, List.map_map]
        congr 1
        · have hm0 : min (a + W) F = a + W := by omega
          simp [hm0]
        · apply List.map_congr_left
          intro j _
          simp only [Function.comp_apply, Nat.succ_eq_add_one]
          have e1 : a + (j + 1) * W = a + W + j * W := by ring
          have e2 : a + (j + 1 + 1) * W = a + W + (j + 1) * W := by ring
          rw [e1, e2]


theorem batchSizes_closed (B : Nat) (hB : 0 < B) :
    ∀ endf current, batchSizes B current endf =
      List.replicate ((endf - current) / B) B ++
        (if (endf - current) % B = 0 then [] else [(endf - current) % B]) := by
  intro endf
  suffices main : ∀ n current, endf - current ≤ n → batchSizes B current endf =
      List.replicate ((endf - current) / B) B ++
        (if (endf - current) % B = 0 then [] else [(endf - current) % B]) by
    intro current; exact main (endf - current) current le_rfl
  intro n
  induction n with
  | zero =>
    intro c hc
    rw [batchSizes, dif_neg (by omega), if_neg (by omega),
      (by omega : endf - c = 0)]
    simp
  | succ n ih =>
    intro c hc
    by_cases h1 : c + B < endf
    · rw [batchSizes, dif_pos ⟨hB, h1⟩, ih (c + B) (by omega)]
      have hd : (endf - c) / B = (endf - (c + B)) / B + 1 := by
        rw [(by omega : endf - c = (endf - (c + B)) + B), Nat.add_div_right _ hB]
      have hm : (endf - c) % B = (endf - (c + B)) % B := by
        rw [(by omega : endf - c = (endf - (c + B)) + B), Nat.add_mod_right]
      rw [hd, hm, List.replicate_succ, List.cons_append]
    · rw [batchSizes, dif_neg (by omega)]
      by_cases h2 : c < endf
      · rw [if_pos h2]
        rcases Nat.lt_or_ge (endf - c) B with hlt | hge
        · rw [Nat.div_eq_of_lt hlt, Nat.mod_eq_of_lt hlt, if_neg (by omega)]
          simp
        · have heq : endf - c = B := by omega
          rw [heq, Nat.div_self hB, Nat.mod_self, if_pos rfl]
          simp
      · rw [if_neg h2, (by omega : endf - c = 0)]
        simp

theorem evalPasses_closed (B : Nat) (hB : 0 < B) :
    ∀ endf current, evalPasses B current endf =
      (List.range ((endf - current) / B)).map
          (fun j => ⟨B, List.range' (current + j * B) B⟩) ++
        (if (endf - current) % B = 0 then []
         else [⟨(endf - current) % B,
               List.range' (current + ((endf - current) / B) * B)
                 ((endf - current) % B)⟩]) := by
  intro endf
  suffices main : ∀ n current, endf - current ≤ n → evalPasses B current endf =
      (List.range ((endf - current) / B)).map
          (fun j => ⟨B, List.range' (current + j * B) B⟩) ++
        (if (endf - current) % B = 0 then []
         else [⟨(endf - current) % B,
               List.range' (current + ((endf - current) / B) * B)
                 ((endf - current) % B)⟩]) by
    intro current; exact main (endf - current) current le_rfl
  intro n
  induction n with
  | zero =>
    intro c hc
    rw [evalPasses, dif_neg (by omega), if_neg (by omega),
      (by omega : endf - c = 0)]
    simp
  | succ n ih =>
    intro c hc
    by_cases h1 : c + B < endf
    · rw [evalPasses, dif_pos ⟨hB, h1⟩, ih (c + B) (by omega)]
      have hd : (endf - c) / B = (endf - (c + B)) / B + 1 := by
        rw [(by omega : endf - c = (endf - (c + B)) + B), Nat.add_div_right _ hB]
      have hm : (endf - c) % B = (endf - (c + B)) % B := by
        rw [(by omega : endf - c = (endf - (c + B)) + B), Nat.add_mod_right]
      rw [hd, hm, List.range_succ_eq_map, List.map_cons, List.map_map,
        List.cons_append]
      congr 1
      · simp
      congr 1
      · apply List.map_congr_left
        intro j _
        simp only [Function.comp_apply, Nat.succ_eq_add_one]
        have e1 : c + (j + 1) * B = c + B + j * B := by ring
        rw [e1]
      · have e2 : c + ((endf - (c + B)) / B + 1) * B
            = c + B + (endf - (c + B)) / B * B := by ring
        rw [e2]
    · rw [evalPasses, dif_neg (by omega)]
      by_cases h2 : c < endf
      · rw [if_pos h2]
        rcases Nat.lt_or_ge (endf - c) B with hlt | hge
        · rw [Nat.div_eq_of_lt hlt, Nat.mod_eq_of_lt hlt, if_neg (by omega)]
          simp
        · have heq : endf - c = B := by omega
          rw [heq, Nat.div_self hB, Nat.mod_self, if_pos rfl,
            (by decide : List.range 1 = [0]), List.map_cons, List.map_nil]
          simp
      · rw [if_neg h2, (by omega : endf - c = 0)]
        simp

/-- C3: for every `EvalWorkEntry` whose work item has
`N = end_frame − start_frame` frames, `evaluate_thread` processes the buffer
as exactly `⌊N / GLOBAL_BATCH_SIZE⌋` full batches of size `GLOBAL_BATCH_SIZE`
followed by at most one short batch of size `N mod GLOBAL_BATCH_SIZE`, and no
short batch when `GLOBAL_BATCH_SIZE` divides `N`. -/
theorem c3_eval_batch_structure (B start_frame end_frame : Nat) (hB : 0 < B) :
    batchSizes B start_frame end_frame =
      List.replicate ((end_frame - start_frame) / B) B ++
        (if (end_frame - start_frame) % B = 0 then []
         else [(end_frame - start_frame) % B]) :=
  batchSizes_closed B hB end_frame start_frame

theorem c3_eval_batch_structure_witness :
    batchSizes 2 3 10 = [2, 2, 2, 1] :=
  (c3_eval_batch_structure 2 3 10 (by decide)).trans (by decide)

theorem range_map_pass_flatten (s B : Nat) :
    ∀ q, (((List.range q).map
        (fun j => (⟨B, List.range' (s + j * B) B⟩ : EvalPass))).flatMap
          EvalPass.frames) = List.range' s (q * B) := by
  intro q
  induction q with
  | zero => simp
  | succ q ih =>
    rw [List.range_succ, List.map_append, List.flatMap_append, ih]
    have happ : List.range' s (q * B) ++ List.range' (s + 1 * (q * B)) B
        = List.range' s (B + q * B) := List.range'_append s (q * B) B 1
    simp only [one_mul] at happ
    simp only [List.map_cons, List.map_nil, List.flatMap_cons, List.flatMap_nil,
      List.append_nil]
    rw [happ, (by ring : B + q * B = (q + 1) * B)]

/-- C7: for every non-sentinel work item, the evaluate worker preprocesses and
includes in a forward pass every frame of `[start_frame, end_frame)` exactly
once (the concatenation of all passes' frames is exactly that range), every
pass's blob batch dimension equals its number of frames (no padding, no
drops), and when the frame count is not a multiple of `GLOBAL_BATCH_SIZE` the
tail frames form one final pass of strictly smaller, separately-declared
shape. -/
theorem c7_eval_frames_exactly_once (B start_frame end_frame : Nat)
    (hB : 0 < B) :
    ((evalPasses B start_frame end_frame).flatMap EvalPass.frames)
        = List.range' start_frame (end_frame - start_frame) ∧
    (∀ p ∈ evalPasses B start_frame end_frame, p.shape = p.frames.length) ∧
    ((end_frame - start_frame) % B ≠ 0 →
      ∃ fullPasses lastPass,
        evalPasses B start_frame end_frame = fullPasses ++ [lastPass] ∧
        lastPass.shape = (end_frame - start_frame) % B ∧
        lastPass.shape < B ∧
        ∀ p ∈ fullPasses, p.shape = B) := by
  have hclosed := evalPasses_closed B hB end_frame start_frame
  set N := end_frame - start_frame with hN
  refine ⟨?_, ?_, ?_⟩
  · rw [hclosed, List.flatMap_append, range_map_pass_flatten]
    have hNb : N / B * B + N % B = N := by
      have h0 := Nat.div_add_mod N B
      rw [Nat.mul_comm B (N / B)] at h0
      exact h0
    by_cases hr : N % B = 0
    · rw [if_pos hr]
      simp only [List.flatMap_nil, List.append_nil]
      rw [(by omega : N / B * B = N)]
    · rw [if_neg hr]
      simp only [List.flatMap_cons, List.flatMap_nil, List.append_nil]
      have happ : List.range' start_frame (N / B * B) ++
          List.range' (start_frame + 1 * (N / B * B)) (N % B)
          = List.range' start_frame (N % B + N / B * B) :=
        List.range'_append start_frame (N / B * B) (N % B) 1
      simp only [one_mul] at happ
      rw [happ, (by omega : N % B + N / B * B = N)]
  · intro p hp
    rw [hclosed] at hp
    rcases List.mem_append.mp hp with hmain | htail
    · obtain ⟨j, _, rfl⟩ := List.mem_map.mp hmain
      simp [List.length_range']
    · by_cases hr : N % B = 0
      · rw [if_pos hr] at htail
        simp at htail
      · rw [if_neg hr] at htail
        rcases List.mem_singleton.mp htail with rfl
        simp [List.length_range']
  · intro hr
    refine ⟨(List.range (N / B)).map
        (fun j => ⟨B, List.range' (start_frame + j * B) B⟩),
      ⟨N % B, List.range' (start_frame + N / B * B) (N % B)⟩, ?_, rfl,
      Nat.mod_lt _ hB, ?_⟩
    · rw [hclosed, if_neg hr]
    · intro p hp
      obtain ⟨j, _, rfl⟩ := List.mem_map.mp hp
      rfl

theorem c7_eval_frames_exactly_once_witness :
    ((evalPasses 2 0 5).flatMap EvalPass.frames) = List.range' 0 5 ∧
    (∀ p ∈ evalPasses 2 0 5, p.shape = p.frames.length) ∧
    (5 % 2 ≠ 0 →
      ∃ fullPasses lastPass,
        evalPasses 2 0 5 = fullPasses ++ [lastPass] ∧
        lastPass.shape = 5 % 2 ∧ lastPass.shape < 2 ∧
        ∀ p ∈ fullPasses, p.shape = 2) :=
  c7_eval_frames_exactly_once 2 0 5 (by decide)

theorem workItemsAux_filter (W : Nat) :
    ∀ (metas : List Nat) (s i : Nat),
      (workItemsAux W s metas).filter (fun it => it.video_index == i) =
        if s ≤ i ∧ i < s + metas.length
        then (splitVideo W 0 (metas.getD (i - s) 0)).map
          (fun q => ⟨i, q.1, q.2⟩)
        else [] := by
  intro metas
  induction metas with
  | nil =>
    intro s i
    rw [workItemsAux, if_neg (by simp)]
    rfl
  | cons F rest ih =>
    intro s i
    rw [workItemsAux, List.filter_append, ih (s + 1) i]
    by_cases hsi : i = s
    · subst hsi
      have hblock : ((splitVideo W 0 F).map
          (fun q => (⟨i, q.1, q.2⟩ : VideoWorkItem))).filter
            (fun it => it.video_index == i)
          = (splitVideo W 0 F).map (fun q => ⟨i, q.1, q.2⟩) := by
        apply List.filter_eq_self.mpr
        intro x hx
        obtain ⟨q, _, rfl⟩ := List.mem_map.mp hx
        simp
      rw [hblock, if_neg (by omega),
        if_pos (by simp only [List.length_cons]; constructor <;> omega)]
      rw [Nat.sub_self, List.getD_cons_zero, List.append_nil]
    · have hblock : ((splitVideo W 0 F).map
          (fun q => (⟨s, q.1, q.2⟩ : VideoWorkItem))).filter
            (fun it => it.video_index == i) = [] := by
        apply List.filter_eq_nil_iff.mpr
        intro x hx
        obtain ⟨q, _, rfl⟩ := List.mem_map.mp hx
        simp
        omega
      rw [hblock, List.nil_append]
      by_cases hin : s + 1 ≤ i ∧ i < s + 1 + rest.length
      · rw [if_pos hin, if_pos (by simp only [List.length_cons]; omega)]
        rw [(by omega : i - s = i - (s + 1) + 1), List.getD_cons_succ]
      · rw [if_neg hin, if_neg (by simp only [List.length_cons]; omega)]

/-- C6: for every list of per-video frame counts and every video index `i`
with `F` frames, the planner (main, lines 809-828) deterministically emits for
video `i`, in order, exactly `⌈F / W⌉` work items with
`W = frames_per_work_item()`, where item `j` spans
`[j·W, min((j+1)·W, F))`; consequently consecutive ranges are contiguous,
each item is non-empty of size at most `W`, every item except possibly the
last has size exactly `W`, and every frame `f < F` lies in exactly one item's
range. -/
theorem c6_work_planner (W : Nat) (metas : List Nat) (i : Nat) (hW : 0 < W)
    (hi : i < metas.length) :
    ((workItems W metas).filter (fun it => it.video_index == i) =
      (List.range ((metas.getD i 0 + W - 1) / W)).map
        (fun j => ⟨i, j * W, min ((j + 1) * W) (metas.getD i 0)⟩)) ∧
    (((workItems W metas).filter (fun it => it.video_index == i)).length
      = (metas.getD i 0 + W - 1) / W) ∧
    (∀ j, j + 1 < (metas.getD i 0 + W - 1) / W →
      min ((j + 1) * W) (metas.getD i 0) = (j + 1) * W) ∧
    (∀ j, j < (metas.getD i 0 + W - 1) / W →
      j * W < min ((j + 1) * W) (metas.getD i 0) ∧
      min ((j + 1) * W) (metas.getD i 0) - j * W ≤ W) ∧
    (∀ f, f < metas.getD i 0 ↔
      ∃! j, j < (metas.getD i 0 + W - 1) / W ∧
        j * W ≤ f ∧ f < min ((j + 1) * W) (metas.getD i 0)) := by
  set F := metas.getD i 0 with hF
  have hfilter : (workItems W metas).filter (fun it => it.video_index == i) =
      (List.range ((F + W - 1) / W)).map
        (fun j => ⟨i, j * W, min ((j + 1) * W) F⟩) := by
    rw [workItems, workItemsAux_filter W metas 0 i,
      if_pos (by constructor <;> omega), Nat.sub_zero, ← hF,
      splitVideo_closed W hW F 0, List.map_map]
    simp only [Nat.zero_add, Nat.zero_sub, Function.comp]
    rfl
  refine ⟨hfilter, by rw [hfilter]; simp, ?_, ?_, ?_⟩
  · intro j hj
    have h2 : (j + 2) * W ≤ F + W - 1 :=
      (Nat.le_div_iff_mul_le hW).mp (by omega)
    have hY : (j + 2) * W = (j + 1) * W + W := by ring
    exact Nat.min_eq_left (by omega)
  · intro j hj
    have h2 : (j + 1) * W ≤ F + W - 1 :=
      (Nat.le_div_iff_mul_le hW).mp (by omega)
    have hY : (j + 1) * W = j * W + W := by ring
    constructor
    · exact lt_min (by omega) (by omega)
    · have := min_le_left ((j + 1) * W) F
      omega
  · intro f
    constructor
    · intro hf
      have hdm := Nat.div_add_mod f W
      have hmod : f % W < W := Nat.mod_lt _ hW
      have hcomm : W * (f / W) = f / W * W := Nat.mul_comm _ _
      have hle : f / W * W ≤ f := by omega
      have hlt : f < (f / W + 1) * W := by
        have : (f / W + 1) * W = f / W * W + W := by ring
        omega
      have hjq : f / W < (F + W - 1) / W := by
        have h3 : f / W + 1 ≤ (F + W - 1) / W := by
          rw [Nat.le_div_iff_mul_le hW]
          have : (f / W + 1) * W = f / W * W + W := by ring
          omega
        omega
      refine ⟨f / W, ⟨hjq, hle, lt_min hlt hf⟩, ?_⟩
      intro y hy
      have := Nat.div_eq_of_lt_le hy.2.1 (lt_of_lt_of_le hy.2.2 (min_le_left _ _))
      omega
    · intro ⟨j, ⟨_, _, hlt⟩, _⟩
      exact lt_of_lt_of_le hlt (min_le_right _ _)

theorem c6_work_planner_witness :
    (workItems 4 [10, 6]).filter (fun it => it.video_index == 0) =
      [⟨0, 0, 4⟩, ⟨0, 4, 8⟩, ⟨0, 8, 10⟩] :=
  ((c6_work_planner 4 [10, 6] 0 (by decide) (by decide)).1).trans (by decide)

theorem masterAssign_map_fst (N : Nat) :
    ∀ (ds : List Nat) (next : Nat), N - next ≤ ds.length →
      (masterAssign N ds next).map Prod.fst = List.range' next (N - next) := by
  intro ds
  induction ds with
  | nil =>
    intro next h
    rw [masterAssign, (by simp only [List.length_nil] at h; omega : N - next = 0)]
    rfl
  | cons d ds ih =>
    intro next h
    rw [masterAssign]
    by_cases h1 : next < N
    · rw [if_pos h1, List.map_cons,
        ih (next + 1) (by simp only [List.length_cons] at h; omega)]
      rw [(by omega : N - next = (N - (next + 1)) + 1), List.range'_succ]
    · rw [if_neg h1, (by omega : N - next = 0)]
      rfl

theorem count_map_fst (k : Nat) :
    ∀ (l : List (Nat × Nat)),
      (l.map Prod.fst).count k = l.countP (fun p => p.1 == k) := by
  intro l
  induction l with
  | nil => rfl
  | cons p l ih =>
    rw [List.map_cons, List.count_cons, List.countP_cons, ih]

theorem countP_and_not (p q : Nat × Nat → Bool) :
    ∀ l : List (Nat × Nat),
      l.countP (fun a => p a && q a) + l.countP (fun a => p a && !q a)
        = l.countP p := by
  intro l
  induction l with
  | nil => rfl
  | cons a l ih =>
    simp only [List.countP_cons]
    cases hp : p a <;> cases hq : q a <;> simp [hp, hq] <;> omega

/-- C1: in a completed run over work items `0..N−1` (the master loop of lines
938-1008 runs until every index is allocated, so the decision list has at
least `N` entries), every work-item index `k < N` is pushed into exactly one
node's `load_work` queue exactly once across the cluster, sentinel entries
excluded. -/
theorem c1_exactly_once_distribution (N : Nat) (decisions : List Nat)
    (hlen : N ≤ decisions.length) (k : Nat) (hk : k < N) :
    ∃ j, (nodeQueue N decisions j).count k = 1 ∧
      ∀ j2, j2 ≠ j → (nodeQueue N decisions j2).count k = 0 := by
  have hfst : (masterAssign N decisions 0).map Prod.fst = List.range N := by
    rw [masterAssign_map_fst N decisions 0 (by omega), Nat.sub_zero,
      List.range_eq_range']
  have hcount1 : (masterAssign N decisions 0).countP (fun p => p.1 == k) = 1 := by
    rw [← count_map_fst, hfst]
    exact List.count_eq_one_of_mem (List.nodup_range N) (List.mem_range.mpr hk)
  obtain ⟨a, ha, hak⟩ : ∃ a ∈ masterAssign N decisions 0, (a.1 == k) = true :=
    List.countP_pos_iff.mp (by omega)
  have key : ∀ j, (nodeQueue N decisions j).count k
      = (masterAssign N decisions 0).countP
          (fun p => (p.1 == k) && (p.2 == j)) := by
    intro j
    rw [nodeQueue, count_map_fst, List.countP_filter]
  have hsplit := countP_and_not (fun p => p.1 == k) (fun p => p.2 == a.2)
    (masterAssign N decisions 0)
  have hpos : 0 < (masterAssign N decisions 0).countP
      (fun p => (p.1 == k) && (p.2 == a.2)) :=
    List.countP_pos_iff.mpr ⟨a, ha, by simp_all⟩
  refine ⟨a.2, ?_, ?_⟩
  · rw [key]
    omega
  · intro j2 hj2
    rw [key]
    have hle : (masterAssign N decisions 0).countP
        (fun p => (p.1 == k) && (p.2 == j2))
        ≤ (masterAssign N decisions 0).countP
            (fun p => (p.1 == k) && !(p.2 == a.2)) := by
      apply List.countP_mono_left
      intro x _ hx
      simp only [Bool.and_eq_true, beq_iff_eq] at hx
      simp only [Bool.and_eq_true, beq_iff_eq, Bool.not_eq_true', beq_eq_false_iff_ne]
      exact ⟨hx.1, by rw [hx.2]; exact hj2⟩
    omega

theorem c1_exactly_once_distribution_witness :
    ∃ j, (nodeQueue 2 [0, 1] j).count 1 = 1 ∧
      ∀ j2, j2 ≠ j → (nodeQueue 2 [0, 1] j2).count 1 = 0 :=
  c1_exactly_once_distribution 2 [0, 1] (by decide) 1 (by decide)

theorem workerProcessed_takeWhile :
    ∀ entries : List Int,
      workerProcessed entries = entries.takeWhile (fun e => e != -1) := by
  intro entries
  induction entries with
  | nil => rfl
  | cons e rest ih =>
    rw [workerProcessed, List.takeWhile_cons]
    by_cases he : e = -1
    · rw [if_pos he, if_neg (by simp [he])]
    · rw [if_neg he, if_pos (by simp [he]), ih]

/-- C8: on every node, after work distribution finishes, the shutdown
sequence of main (lines 1010-1051) pushes exactly `LOAD_WORKERS_PER_NODE`
sentinel entries into `load_work`, pushes exactly one sentinel into each
`eval_work[g]` with `g < GPUS_PER_NODE` (and none elsewhere), every
eval-sentinel push occurs strictly after every load-worker join in the
sequence, and every worker (load or eval) returns at its first popped
sentinel, processing exactly the entries before it. -/
theorem c8_sentinel_shutdown (L G : Nat) :
    ((shutdownSequence L G).count ShutdownEvent.pushLoadSentinel = L) ∧
    (∀ g, (shutdownSequence L G).count (ShutdownEvent.pushEvalSentinel g)
        = if g < G then 1 else 0) ∧
    (∀ i j k g : Nat,
      (shutdownSequence L G)[i]? = some (ShutdownEvent.joinLoadWorker k) →
      (shutdownSequence L G)[j]? = some (ShutdownEvent.pushEvalSentinel g) →
      i < j) ∧
    (∀ entries : List Int,
      workerProcessed entries = entries.takeWhile (fun e => e != -1)) := by
  have hseq : shutdownSequence L G =
      (List.replicate L ShutdownEvent.pushLoadSentinel ++
        (List.range L).map ShutdownEvent.joinLoadWorker) ++
      ((List.range G).map ShutdownEvent.pushEvalSentinel ++
        (List.range G).map ShutdownEvent.joinEvalWorker) := by
    rw [shutdownSequence, List.append_assoc]
  have hlen : (List.replicate L ShutdownEvent.pushLoadSentinel ++
      (List.range L).map ShutdownEvent.joinLoadWorker).length = L + L := by
    simp
  refine ⟨?_, ?_, ?_, workerProcessed_takeWhile⟩
  · rw [shutdownSequence, List.count_append, List.count_append,
      List.count_append, List.count_replicate_self,
      List.count_eq_zero_of_not_mem (by simp),
      List.count_eq_zero_of_not_mem (by simp),
      List.count_eq_zero_of_not_mem (by simp)]
    omega
  · intro g
    have hinj : Function.Injective ShutdownEvent.pushEvalSentinel := by
      intro a b hab
      injection hab
    have hz1 : (List.replicate L ShutdownEvent.pushLoadSentinel).count
        (ShutdownEvent.pushEvalSentinel g) = 0 :=
      List.count_eq_zero_of_not_mem (by simp [List.mem_replicate])
    have hz2 : ((List.range L).map ShutdownEvent.joinLoadWorker).count
        (ShutdownEvent.pushEvalSentinel g) = 0 :=
      List.count_eq_zero_of_not_mem (by simp)
    have hz3 : ((List.range G).map ShutdownEvent.joinEvalWorker).count
        (ShutdownEvent.pushEvalSentinel g) = 0 :=
      List.count_eq_zero_of_not_mem (by simp)
    have hc : ((List.range G).map ShutdownEvent.pushEvalSentinel).count
        (ShutdownEvent.pushEvalSentinel g) = (List.range G).count g :=
      List.count_map_of_injective _ _ hinj g
    rw [shutdownSequence, List.count_append, List.count_append,
      List.count_append, hz1, hz2, hz3, hc]
    by_cases hg : g < G
    · rw [if_pos hg, List.count_eq_one_of_mem (List.nodup_range G)
        (List.mem_range.mpr hg)]
    · rw [if_neg hg,
        List.count_eq_zero_of_not_mem (by simp [List.mem_range]; omega)]
  · intro i j k g hi hj
    have hilt : i < L + L := by
      by_contra hge
      push_neg at hge
      rw [hseq, List.getElem?_append, if_neg (by rw [hlen]; omega)] at hi
      have hmem := List.getElem?_mem hi
      simp at hmem
    have hjge : L + L ≤ j := by
      by_contra hlt
      push_neg at hlt
      rw [hseq, List.getElem?_append, if_pos (by rw [hlen]; omega)] at hj
      have hmem := List.getElem?_mem hj
      simp [List.mem_replicate] at hmem
    omega

/-- C9 counterexample: when `--video_paths_file` is missing and `--help` is
absent, the program does not exit with code 1: the `required_option` exception
is rethrown at line 745 and escapes main uncaught (the process aborts). -/
theorem c9_exit_codes_counterexample :
    mainOutcome false none ≠ CliOutcome.exitCode 1 ∧
      mainOutcome false none = CliOutcome.uncaughtRequiredOption :=
  ⟨by decide, rfl⟩

/-- C9 amended: the process exits with code 0 on successful completion and
with code 1 whenever `--help` is given (with or without the required option);
but when the required `--video_paths_file` option is missing and `--help` is
absent, the `required_option` exception is rethrown out of main uncaught
(abnormal termination without usage text), not exit code 1. -/
theorem c9_exit_codes (f : Option String) (s : String) :
    mainOutcome true f = CliOutcome.exitCode 1 ∧
    mainOutcome false (some s) = CliOutcome.exitCode 0 ∧
    mainOutcome false none = CliOutcome.uncaughtRequiredOption := by
  refine ⟨?_, rfl, rfl⟩
  cases f <;> rfl

/-- C2 at a failing input: all videos of width 16 and height 16 (equal, as the
claim's precondition requires) and `FRAMES_PER_WORK_ITEM = 1`; for the
single-frame work item `[0, 1)` the slot offset of frame 0 satisfies the
in-bounds assertion of line 318 (`frames_buffer_offset < buffer_size`), yet
the hardware-decode plane copies (lines 326-335) write the byte ranges
`[0, 256)` and `[256, 512)` and the software-decode RGB24 store (lines
204-211) writes `[0, 768)`, while the frame's slot is `[0, 384)` and the
whole buffer is 384 bytes: both paths write past the frame's slot and past
the end of the buffer. -/
theorem c2_frame_write_bounds_violated :
    framesBufferOffset 16 16 0 0 < frameBufferSize 16 16 1 ∧
    ¬ writesWithin (hwDecodeWrites 16 16 (framesBufferOffset 16 16 0 0))
        (framesBufferOffset 16 16 0 0)
        (framesBufferOffset 16 16 0 0 + nv12ImageSize 16 16) ∧
    ¬ writesWithin (swDecodeWrites 16 16 (framesBufferOffset 16 16 0 0))
        (framesBufferOffset 16 16 0 0)
        (framesBufferOffset 16 16 0 0 + nv12ImageSize 16 16) ∧
    ¬ writesWithin (hwDecodeWrites 16 16 (framesBufferOffset 16 16 0 0))
        0 (frameBufferSize 16 16 1) ∧
    ¬ writesWithin (swDecodeWrites 16 16 (framesBufferOffset 16 16 0 0))
        0 (frameBufferSize 16 16 1) := by
  decide

/-- C10 at a failing input: in the software-decode path, for any work item
with at least one frame (here 4 frames), the value of `sws_context` passed to
the first `sws_getCachedContext` call of the work item is the indeterminate
value of the uninitialized local declared at line 306 — not null and not a
context previously returned by the lookup. -/
theorem c10_sws_context_uninitialized_first_read :
    swsReads 4 = [SwsPtr.indeterminate, SwsPtr.fromLookup 0,
      SwsPtr.fromLookup 1, SwsPtr.fromLookup 2] ∧
    ∀ numFrames, (swsReads (numFrames + 1)).head? = some SwsPtr.indeterminate :=
  ⟨by decide, fun _ => rfl⟩

theorem countP_range_agree :
    ∀ (L : Nat) (f f2 : Nat → Bool), (∀ j, j < L → f j = f2 j) →
      (List.range L).countP f = (List.range L).countP f2 := by
  intro L
  induction L with
  | zero => intro f f2 h; rfl
  | succ L ih =>
    intro f f2 h
    rw [List.range_succ, List.countP_append, List.countP_append,
      ih f f2 (fun j hj => h j (by omega))]
    simp only [List.countP_cons, List.countP_nil, Nat.zero_add]
    rw [h L (by omega)]

theorem countP_range_update (L : Nat) :
    ∀ i : Nat, i < L → ∀ f f2 : Nat → Bool, (∀ j, j ≠ i → f j = f2 j) →
      (List.range L).countP f2 + (if f i = true then 1 else 0)
        = (List.range L).countP f + (if f2 i = true then 1 else 0) := by
  induction L with
  | zero => intro i hi; exact absurd hi (Nat.not_lt_zero i)
  | succ L ih =>
    intro i hi f f2 hagree
    rw [List.range_succ, List.countP_append, List.countP_append]
    simp only [List.countP_cons, List.countP_nil, Nat.zero_add]
    by_cases hiL : i = L
    · subst hiL
      rw [countP_range_agree i f f2 (fun j hj => hagree j (by omega))]
      omega
    · have h2 := ih i (by omega) f f2 hagree
      have hfL : f L = f2 L := hagree L (Ne.symm hiL)
      rw [hfL]
      omega

theorem heldMatches_none (g : Nat) : heldMatches none g = false := rfl

theorem heldMatches_some (b : BufferId) (g : Nat) :
    heldMatches (some b) g = (b.gpu_device_id == g) := rfl

theorem step_preserves_counts (G T L : Nat) (s s2 : NodeState)
    (hstep : Step G T L s s2) (g : Nat) :
    bufferCountEntries s2 L g = bufferCountEntries s L g := by
  cases hstep with
  | loadPopBuffer i b rest hi hdone hhold hq =>
    have hempty : s.emptyLoadBuffers.countP (fun x => x.gpu_device_id == g)
        = rest.countP (fun x => x.gpu_device_id == g)
          + (if (b.gpu_device_id == g) = true then 1 else 0) := by
      rw [hq, List.countP_cons]
    have hupd := countP_range_update L i hi
      (fun j => heldMatches (s.loadHold j) g)
      (fun j => heldMatches (if j = i then some b else s.loadHold j) g)
      (fun j hj => by simp [hj])
    simp only [hhold, heldMatches_none, heldMatches_some, eq_self_iff_true,
      if_true, Bool.false_eq_true, if_false, Nat.add_zero] at hupd
    simp only [bufferCountEntries, countGpu, loadHeldCount, evalHeldCount]
    omega
  | loadPushEval i w b hi hhold =>
    have hupd := countP_range_update L i hi
      (fun j => heldMatches (s.loadHold j) g)
      (fun j => heldMatches (if j = i then none else s.loadHold j) g)
      (fun j hj => by simp [hj])
    simp only [hhold, heldMatches_none, heldMatches_some, eq_self_iff_true,
      if_true, Bool.false_eq_true, if_false, Nat.add_zero] at hupd
    simp only [bufferCountEntries, countGpu, loadHeldCount, evalHeldCount]
    by_cases hgb : g = b.gpu_device_id
    · have hbg : (b.gpu_device_id == g) = true := by rw [hgb]; exact beq_self_eq_true _
      rw [hbg] at hupd
      simp only [eq_self_iff_true, if_true] at hupd
      rw [if_pos (by rw [hgb]), List.countP_append]
      simp only [List.countP_cons, List.countP_nil, EvalEntry.isEntry,
        Nat.zero_add, if_true]
      omega
    · have hbg : (b.gpu_device_id == g) = false :=
        beq_eq_false_iff_ne.mpr (fun h => hgb h.symm)
      rw [hbg] at hupd
      simp only [Bool.false_eq_true, if_false, Nat.add_zero] at hupd
      rw [if_neg hgb]
      omega
  | loadExit i hi hdone hhold => rfl
  | evalPopEntry g0 w b rest hg hdone hhold hq =>
    simp only [bufferCountEntries, countGpu, loadHeldCount, evalHeldCount]
    by_cases hgg : g = g0
    · subst hgg
      rw [if_pos rfl, if_pos rfl, hq, hhold]
      simp only [List.countP_cons, EvalEntry.isEntry, if_true]
      omega
    · rw [if_neg hgg, if_neg hgg]
  | evalPushBuffer g0 w b hg hhold =>
    simp only [bufferCountEntries, countGpu, loadHeldCount, evalHeldCount]
    rw [List.countP_append]
    simp only [List.countP_cons, List.countP_nil, Nat.zero_add]
    by_cases hgg : g = g0
    · subst hgg
      rw [if_pos rfl, hhold]
      simp only [beq_self_eq_true, if_true]
      omega
    · rw [if_neg hgg,
        (beq_eq_false_iff_ne.mpr (fun h => hgg h.symm) : (g0 == g) = false)]
      simp only [Bool.false_eq_true, if_false, Nat.add_zero]
  | evalPopSentinel g0 rest hg hdone hhold hq =>
    simp only [bufferCountEntries, countGpu, loadHeldCount, evalHeldCount]
    by_cases hgg : g = g0
    · subst hgg
      rw [if_pos rfl, hq]
      simp only [List.countP_cons, EvalEntry.isEntry, Bool.false_eq_true,
        if_false, Nat.add_zero]
    · rw [if_neg hgg]
  | pushEvalSentinels hnot hjoined =>
    simp only [bufferCountEntries, countGpu, loadHeldCount, evalHeldCount]
    by_cases hgG : g < G
    · rw [if_pos hgG, List.countP_append]
      simp only [List.countP_cons, List.countP_nil, EvalEntry.isEntry,
        Bool.false_eq_true, if_false, Nat.add_zero, Nat.zero_add]
    · rw [if_neg hgG]

theorem step_preserves_affinity (G T L : Nat) (s s2 : NodeState)
    (hstep : Step G T L s s2)
    (hq2 : ∀ g w b, EvalEntry.entry w b ∈ s.evalWork g → b.gpu_device_id = g)
    (hh2 : ∀ g w b, s.evalHold g = some (w, b) → b.gpu_device_id = g) :
    (∀ g w b, EvalEntry.entry w b ∈ s2.evalWork g → b.gpu_device_id = g) ∧
    (∀ g w b, s2.evalHold g = some (w, b) → b.gpu_device_id = g) := by
  cases hstep with
  | loadPopBuffer i b rest hi hdone hhold hq => exact ⟨hq2, hh2⟩
  | loadPushEval i w b hi hhold =>
    refine ⟨?_, hh2⟩
    intro g w2 b2 hmem
    dsimp only at hmem
    by_cases hg : g = b.gpu_device_id
    · rw [if_pos hg] at hmem
      rcases List.mem_append.mp hmem with h1 | h1
      · exact hq2 g w2 b2 h1
      · have heq := List.mem_singleton.mp h1
        injection heq with hw hb
        rw [hb, hg]
    · rw [if_neg hg] at hmem
      exact hq2 g w2 b2 hmem
  | loadExit i hi hdone hhold => exact ⟨hq2, hh2⟩
  | evalPopEntry g0 w b rest hg hdone hhold hq =>
    constructor
    · intro g w2 b2 hmem
      dsimp only at hmem
      by_cases hgg : g = g0
      · rw [if_pos hgg] at hmem
        exact hq2 g w2 b2 (by rw [hgg, hq]; exact List.mem_cons_of_mem _ hmem)
      · rw [if_neg hgg] at hmem
        exact hq2 g w2 b2 hmem
    · intro g w2 b2 hhold2
      dsimp only at hhold2
      by_cases hgg : g = g0
      · rw [if_pos hgg] at hhold2
        injection hhold2 with hpair
        have hb : b = b2 := congrArg Prod.snd hpair
        have hbg : b.gpu_device_id = g0 :=
          hq2 g0 w b (by rw [hq]; exact List.mem_cons_self _ _)
        rw [← hb, hgg]
        exact hbg
      · rw [if_neg hgg] at hhold2
        exact hh2 g w2 b2 hhold2
  | evalPushBuffer g0 w b hg hhold =>
    refine ⟨hq2, ?_⟩
    intro g w2 b2 hhold2
    dsimp only at hhold2
    by_cases hgg : g = g0
    · rw [if_pos hgg] at hhold2
      exact Option.noConfusion hhold2
    · rw [if_neg hgg] at hhold2
      exact hh2 g w2 b2 hhold2
  | evalPopSentinel g0 rest hg hdone hhold hq =>
    refine ⟨?_, hh2⟩
    intro g w2 b2 hmem
    dsimp only at hmem
    by_cases hgg : g = g0
    · rw [if_pos hgg] at hmem
      exact hq2 g w2 b2 (by rw [hgg, hq]; exact List.mem_cons_of_mem _ hmem)
    · rw [if_neg hgg] at hmem
      exact hq2 g w2 b2 hmem
  | pushEvalSentinels hnot hjoined =>
    refine ⟨?_, hh2⟩
    intro g w2 b2 hmem
    dsimp only at hmem
    by_cases hgG : g < G
    · rw [if_pos hgG] at hmem
      rcases List.mem_append.mp hmem with h1 | h1
      · exact hq2 g w2 b2 h1
      · exact absurd (List.mem_singleton.mp h1) (by simp)
    · rw [if_neg hgG] at hmem
      exact hq2 g w2 b2 hmem

theorem initialBuffers_countP (T : Nat) :
    ∀ G g : Nat, (initialBuffers G T).countP (fun b => b.gpu_device_id == g)
      = if g < G then T else 0 := by
  intro G
  induction G with
  | zero =>
    intro g
    simp [initialBuffers]
  | succ G ih =>
    intro g
    rw [initialBuffers, List.range_succ, List.flatMap_append, List.countP_append]
    have hfold : ((List.range G).flatMap
        (fun g2 => (List.range T).map (fun i => (⟨g2, i⟩ : BufferId)))).countP
          (fun b => b.gpu_device_id == g) = if g < G then T else 0 := ih g
    rw [hfold]
    have hlast : ([G].flatMap
        (fun g2 => (List.range T).map (fun i => (⟨g2, i⟩ : BufferId)))).countP
          (fun b => b.gpu_device_id == g) = if G = g then T else 0 := by
      simp only [List.flatMap_cons, List.flatMap_nil, List.append_nil]
      rw [List.countP_map]
      by_cases hGg : G = g
      · rw [if_pos hGg]
        have : ∀ i ∈ List.range T,
            ((fun b => b.gpu_device_id == g) ∘ (fun i => (⟨G, i⟩ : BufferId))) i
              = (fun _ => true) i := by
          intro i _
          simp [hGg]
        rw [List.countP_congr (by intro x hx; rw [this x hx]), List.countP_true,
          List.length_range]
      · rw [if_neg hGg]
        have : ∀ i ∈ List.range T,
            ((fun b => b.gpu_device_id == g) ∘ (fun i => (⟨G, i⟩ : BufferId))) i
              = (fun _ => false) i := by
          intro i _
          simp [hGg]
        rw [List.countP_congr (by intro x hx; rw [this x hx]), List.countP_false]
        rfl
    rw [hlast]
    by_cases h1 : g < G
    · rw [if_pos h1, if_neg (by omega), if_pos (by omega)]
      omega
    · by_cases h2 : G = g
      · rw [if_pos h2, if_neg h1, if_pos (by omega)]
        omega
      · rw [if_neg h2, if_neg h1, if_neg (by omega)]

theorem initial_bufferCountEntries (G T L g : Nat) :
    bufferCountEntries (initialState G T) L g = if g < G then T else 0 := by
  simp only [bufferCountEntries, initialState, countGpu, loadHeldCount,
    evalHeldCount]
  rw [initialBuffers_countP T G g]
  have h2 : (List.range L).countP (fun i => heldMatches none g) = 0 :=
    List.countP_eq_zero.mpr (fun a ha => by simp [heldMatches])
  rw [h2]
  simp

theorem reachable_invariant (G T L : Nat) (s : NodeState)
    (h : bufferPoolReachable G T L s) :
    (∀ g, bufferCountEntries s L g = if g < G then T else 0) ∧
    (∀ g w b, EvalEntry.entry w b ∈ s.evalWork g → b.gpu_device_id = g) ∧
    (∀ g w b, s.evalHold g = some (w, b) → b.gpu_device_id = g) := by
  induction h with
  | refl =>
    refine ⟨fun g => initial_bufferCountEntries G T L g, ?_, ?_⟩
    · intro g w b hmem
      simp [initialState] at hmem
    · intro g w b hh
      simp [initialState] at hh
  | tail hpre hstep ih =>
    obtain ⟨ihc, ihq, ihh⟩ := ih
    have haff := step_preserves_affinity G T L _ _ hstep ihq ihh
    exact ⟨fun g => (step_preserves_counts G T L _ _ hstep g).trans (ihc g),
      haff.1, haff.2⟩

/-- C4 counterexample: with `GPUS_PER_NODE = 1`, `TASKS_IN_QUEUE_PER_GPU = 1`,
`LOAD_WORKERS_PER_NODE = 1`, the state reached by letting the load worker pop
its shutdown sentinel and return, joining it, and letting main push the
sentinel into `eval_work[0]` (lines 1036-1040) is a reachable instant of a run
at which `|empty_load_buffers with gpu 0| + |load workers holding a buffer of
gpu 0| + |eval_work[0]| + |eval worker 0 holding| = 1 + 0 + 1 + 0 = 2 ≠ 1 =
TASKS_IN_QUEUE_PER_GPU`: the sentinel is an entry of `eval_work[0]` but
carries no buffer, so the claimed equation fails at that instant. -/
theorem c4_buffer_conservation_counterexample :
    bufferPoolReachable 1 1 1 shutdownSentinelState ∧
      ¬ (bufferCount shutdownSentinelState 1 0 = 1) := by
  constructor
  · exact Relation.ReflTransGen.head
      (Step.loadExit (initialState 1 1) 0 (by decide) rfl rfl)
      (Relation.ReflTransGen.head
        (Step.pushEvalSentinels shutdownMidState rfl
          (fun i hi => by rw [Nat.lt_one_iff.mp hi]; rfl))
        Relation.ReflTransGen.refl)
  · decide

/-- C4 amended: at every instant of a run, for each GPU `g < GPUS_PER_NODE`,
the number of buffer identities in `empty_load_buffers` with gpu `g`, plus
buffers held by load workers on `g`, plus *non-sentinel* entries in
`eval_work[g]`, plus buffers held by the eval worker on `g`, equals
`TASKS_IN_QUEUE_PER_GPU`; every buffer identity is pre-enqueued into
`empty_load_buffers` at startup (the initial state of the system), and the
buffer held by the eval worker of GPU `g` always has owning gpu `g`, so the
`LoadBufferEntry{gpu_device_id = g, buffer_index}` it pushes back (lines
648-651) restores the buffer's original `(gpu_id, buffer_index)` identity. -/
theorem c4_buffer_conservation (G T L : Nat) (s : NodeState)
    (h : bufferPoolReachable G T L s) :
    (∀ g, g < G → bufferCountEntries s L g = T) ∧
    (∀ g w b, s.evalHold g = some (w, b) → b.gpu_device_id = g) := by
  obtain ⟨hc, _, hh⟩ := reachable_invariant G T L s h
  exact ⟨fun g hg => by rw [hc g, if_pos hg], hh⟩

theorem c4_buffer_conservation_witness :
    bufferCountEntries (initialState 1 1) 1 0 = 1 :=
  (c4_buffer_conservation 1 1 1 (initialState 1 1)
    Relation.ReflTransGen.refl).1 0 (by decide)

/-- C5: every `EvalWorkEntry` ever present on queue `eval_work[g]` that
references a buffer (i.e. every non-sentinel entry) references a buffer whose
owning GPU is `g`: a load worker pushes the entry for the buffer it filled
into the eval queue indexed by that buffer's `gpu_device_id` (line 354), and
this affinity is preserved by every pipeline step, in every reachable state. -/
theorem c5_eval_queue_gpu_affinity (G T L : Nat) (s : NodeState)
    (h : bufferPoolReachable G T L s) (g w : Nat) (b : BufferId)
    (hmem : EvalEntry.entry w b ∈ s.evalWork g) :
    b.gpu_device_id = g :=
  (reachable_invariant G T L s h).2.1 g w b hmem

theorem c5_eval_queue_gpu_affinity_witness :
    (⟨0, 0⟩ : BufferId).gpu_device_id = 0 :=
  c5_eval_queue_gpu_affinity 1 1 1 evalQueuedState
    (Relation.ReflTransGen.head
      (Step.loadPopBuffer (initialState 1 1) 0 ⟨0, 0⟩ [] (by decide) rfl rfl rfl)
      (Relation.ReflTransGen.head
        (Step.loadPushEval loadHoldingState 0 7 ⟨0, 0⟩ (by decide) rfl)
        Relation.ReflTransGen.refl))
    0 7 ⟨0, 0⟩ (by decide)

end Lightscan
